import Mathlib

/-!
Verification of the streaming response decoder of `go-openai`
(`stream_reader.go`, package `openai`).

The Go code is shallowly embedded: the byte stream behind the
`bufio.Reader` is a `List Char` (Go bytes are modelled as characters; every
byte relevant to the protocol is ASCII), `bufio.Reader.ReadBytes('\n')` is
`readLine`, and the `streamReader[T]` struct is the `StreamReader`
structure below.  The pluggable JSON unmarshaler
(`utils.Unmarshaler`, from the `internal` package, outside this
repository's streaming sources) is a parameter `uErr` / `uResp` of the
operations: `none` models an unmarshal error, `some v` a successful parse
into `v`.  The `utils.ErrorAccumulator` is a byte buffer with `Write` as
append, exactly as the spec describes it.

The infinite `for` loop of `processLines` is embedded as a step function
`processStep` (one loop iteration) driven by `processLoopAux` with fuel
`source.length + 1`; each iteration that does not return consumes at least
one byte of the source, so this fuel is always sufficient
(`processLoop_eq_step` gives the fuel-free unfolding used by all proofs).
-/

namespace GoOpenAI

/-- One byte of the wire protocol, modelled as a `Char`. -/
abbrev Byte := Char

/-- Structured API error carried by an error response.  Modelled from the
spec: the repository's `APIError` type (defined outside the streaming
sources) is described in the spec as a structured error value
`\x7b message: string, type?: string, code?: string|number \x7d`; only the
`message` field is relevant to the claims. -/
structure APIError where
  message : String
  deriving DecidableEq, Repr

/-- Modelled from the spec: the repository's `ErrorResponse` wrapper
(defined outside the streaming sources) as unmarshalled from an error
payload; its `Error` field is a possibly-nil pointer to an `APIError`. -/
structure ErrorResponse where
  error : Option APIError
  deriving DecidableEq, Repr

/-- The Go `error` values that the stream reader can produce.
`eof` is `io.EOF`, `tooManyEmpty` is `ErrTooManyEmptyStreamMessages`,
`api e` is a structured `*APIError` surfaced as an error, and
`parseFailure` is a JSON unmarshal error surfaced from `Recv`. -/
inductive GoErr where
  | eof
  | tooManyEmpty
  | api (e : APIError)
  | parseFailure
  deriving DecidableEq, Repr

/-- The mutable state of `streamReader[T]` (stream_reader.go, lines 23-35).
`source` stands for the bytes still unread in the `bufio.Reader`;
`dataBuffer` and `errAccumulator` are the two byte buffers.  The
unmarshaler field is passed to the operations as an explicit parameter
instead (it is constant over the stream's lifetime). -/
structure StreamReader where
  emptyMessagesLimit : Nat
  isFinished : Bool
  receivedDone : Bool
  source : List Byte
  dataBuffer : List Byte
  errAccumulator : List Byte
  deriving DecidableEq, Repr

/-- Bytes of the literal `"data: "` (stream_reader.go line 133). -/
def dataHeaderBytes : List Byte := ['d', 'a', 't', 'a', ':', ' ']

/-- Bytes of the literal `"error: "` (stream_reader.go line 155). -/
def errorHeaderBytes : List Byte := ['e', 'r', 'r', 'o', 'r', ':', ' ']

/-- Bytes of the terminal token `"[DONE]"` (stream_reader.go line 138). -/
def doneMarkerBytes : List Byte := ['[', 'D', 'O', 'N', 'E', ']']

/-- Bytes of the alternate terminal token `"done"` (line 138). -/
def doneAltBytes : List Byte := ['d', 'o', 'n', 'e']

/-- Bytes of the marker `"error":` (with the quotes) used by the raw-JSON
error check (line 159) and by `Recv` (line 49). -/
def errorKeyBytes : List Byte := ['"', 'e', 'r', 'r', 'o', 'r', '"', ':']

/-- Bytes of the marker `"choices"` (with the quotes) used by the decode
tolerance in `Recv` (line 61). -/
def choicesKeyBytes : List Byte := ['"', 'c', 'h', 'o', 'i', 'c', 'e', 's', '"']

/-- Bytes of the literal open brace checked by `bytes.HasPrefix(line, []byte("\x7b"))`
on line 159.  `Char.ofNat 123` is the brace character. -/
def openBraceBytes : List Byte := [Char.ofNat 123]

/-- Model of `bytes.HasPrefix(l, pre)`. -/
def isPrefixList : List Byte → List Byte → Bool
  | [], _ => true
  | _ :: _, [] => false
  | a :: as, b :: bs => a == b && isPrefixList as bs

/-- Model of `bytes.Contains(hay, needle)`. -/
def containsSub : List Byte → List Byte → Bool
  | [], needle => needle.isEmpty
  | c :: t, needle => isPrefixList needle (c :: t) || containsSub t needle

/-- Is the byte one of the characters trimmed by
`bytes.TrimRight(rawLine, "\r\n")`. -/
def isCRLF (c : Byte) : Bool := c == '\r' || c == '\n'

/-- Model of `bytes.TrimRight(l, "\r\n")` (stream_reader.go line 105). -/
def trimRightCRLF (l : List Byte) : List Byte :=
  (l.reverse.dropWhile isCRLF).reverse

/-- Model of `bufio.Reader.ReadBytes('\n')` on the remaining bytes:
returns the bytes up to and including the first newline together with
`false` (no read error) and the remaining bytes; if no newline remains it
returns all remaining bytes together with `true` (the read returned
`io.EOF`) and an exhausted source. -/
def readLine : List Byte → List Byte × Bool × List Byte
  | [] => ([], true, [])
  | c :: t =>
    if c == '\n' then ([c], false, t)
    else
      let r := readLine t
      (c :: r.1, r.2.1, r.2.2)

/-- Model of `streamReader.unmarshalError` (stream_reader.go lines
168-180): returns `none` when the accumulator is empty or the unmarshal
fails, otherwise the parsed `ErrorResponse`. -/
def unmarshalError (uErr : List Byte → Option ErrorResponse)
    (errBytes : List Byte) : Option ErrorResponse :=
  if errBytes.isEmpty then none else uErr errBytes

/-- Outcome of one iteration of the `for` loop of `processLines`: either
the loop returns to the caller with a value, or it continues with an
updated stream state and empty-messages counter. -/
inductive StepOut where
  | ret (r : (List Byte × Option GoErr) × StreamReader)
  | cont (s : StreamReader) (cnt : Nat)
  deriving DecidableEq, Repr

/-- One iteration of the `for` loop of `processLines` (stream_reader.go
lines 87-165), translated branch by branch in source order.  `cnt` is the
local variable `emptyMessagesCount`. -/
def processStep (uErr : List Byte → Option ErrorResponse)
    (s : StreamReader) (cnt : Nat) : StepOut :=
  let raw := (readLine s.source).1
  let rest := (readLine s.source).2.2
  if (readLine s.source).2.1 then
    -- readErr == io.EOF: the partial rawLine, if any, is discarded (line 91)
    if s.dataBuffer.isEmpty then
      StepOut.ret (([], some GoErr.eof), { s with isFinished := true, source := rest })
    else
      StepOut.ret ((s.dataBuffer, none), { s with dataBuffer := [], source := rest })
  else
    let line := trimRightCRLF raw
    if line.isEmpty then
      -- empty line signals end of an event (line 108)
      match unmarshalError uErr s.errAccumulator with
      | some resp =>
        StepOut.ret (([], Option.map GoErr.api resp.error), { s with source := rest })
      | none =>
        if s.dataBuffer.isEmpty then
          if s.emptyMessagesLimit < cnt + 1 then
            StepOut.ret (([], some GoErr.tooManyEmpty), { s with source := rest })
          else
            StepOut.cont { s with source := rest } (cnt + 1)
        else
          StepOut.ret ((s.dataBuffer, none), { s with dataBuffer := [], source := rest })
    else if isPrefixList dataHeaderBytes line then
      let payload := line.drop 6
      if payload = doneMarkerBytes ∨ payload = doneAltBytes then
        StepOut.ret (([], some GoErr.eof),
          { s with isFinished := true, receivedDone := true, source := rest })
      else if payload.isEmpty then
        -- empty data payload: heartbeat, keep accumulating (line 145)
        StepOut.cont { s with source := rest } cnt
      else
        StepOut.cont
          { s with source := rest,
                   dataBuffer := if s.dataBuffer.isEmpty then payload
                                 else s.dataBuffer ++ '\n' :: payload } cnt
    else if isPrefixList errorHeaderBytes line then
      StepOut.cont
        { s with source := rest,
                 errAccumulator := s.errAccumulator ++ line.drop 7 } cnt
    else if containsSub line errorKeyBytes && isPrefixList openBraceBytes line then
      StepOut.cont
        { s with source := rest,
                 errAccumulator := s.errAccumulator ++ line ++ ['\n'] } cnt
    else
      -- other event types (event:, id:, retry:) are ignored (line 164)
      StepOut.cont { s with source := rest } cnt

/-- The `for` loop of `processLines`, driven by fuel.  Each iteration that
continues consumes at least one byte of the source, so any fuel above
`source.length` is enough; the fuel-`0` value is never reached from
`processLoop`. -/
def processLoopAux (uErr : List Byte → Option ErrorResponse) :
    Nat → StreamReader → Nat → (List Byte × Option GoErr) × StreamReader
  | 0, s, _ => (([], none), s)
  | f + 1, s, cnt =>
    match processStep uErr s cnt with
    | StepOut.ret r => r
    | StepOut.cont s' c' => processLoopAux uErr f s' c'

/-- The `for` loop of `processLines` entered with counter `cnt`. -/
def processLoop (uErr : List Byte → Option ErrorResponse)
    (s : StreamReader) (cnt : Nat) : (List Byte × Option GoErr) × StreamReader :=
  processLoopAux uErr (s.source.length + 1) s cnt

/-- Model of `streamReader.processLines` (stream_reader.go lines 79-166):
the loop is entered with the local `emptyMessagesCount` equal to `0`. -/
def processLines (uErr : List Byte → Option ErrorResponse)
    (s : StreamReader) : (List Byte × Option GoErr) × StreamReader :=
  processLoop uErr s 0

/-- Model of `streamReader.RecvRaw` (stream_reader.go lines 70-76). -/
def RecvRaw (uErr : List Byte → Option ErrorResponse)
    (s : StreamReader) : (List Byte × Option GoErr) × StreamReader :=
  if s.isFinished then (([], some GoErr.eof), s) else processLines uErr s

/-- Model of `streamReader.IsComplete` (stream_reader.go lines 187-189). -/
def IsComplete (s : StreamReader) : Bool := s.receivedDone

/-- Which of our error values satisfy
`errors.Is(err, io.ErrUnexpectedEOF) || errors.Is(err, io.EOF)`
(stream_reader.go line 41); only `io.EOF` itself can occur here. -/
def isEOFLike : GoErr → Bool
  | GoErr.eof => true
  | _ => false

/-- Model of `streamReader.Recv` (stream_reader.go lines 37-68).
`uErr` models `stream.unmarshaler` targeting `ErrorResponse`, `uResp`
models it targeting the streamed message type `T`, and `dflt` is the zero
value of `T` that the Go code returns alongside errors. -/
def Recv {T : Type} (uErr : List Byte → Option ErrorResponse)
    (uResp : List Byte → Option T) (dflt : T)
    (s : StreamReader) : (T × Option GoErr) × StreamReader :=
  let r := RecvRaw uErr s
  match r.1.2 with
  | some e =>
    if isEOFLike e then ((dflt, some GoErr.eof), r.2) else ((dflt, some e), r.2)
  | none =>
    let rawLine := r.1.1
    let viaError : Option APIError :=
      if containsSub rawLine errorKeyBytes then
        (uErr rawLine).bind ErrorResponse.error
      else none
    match viaError with
    | some e => ((dflt, some (GoErr.api e)), r.2)
    | none =>
      match uResp rawLine with
      | some resp => ((resp, none), r.2)
      | none =>
        if containsSub rawLine choicesKeyBytes then ((dflt, none), r.2)
        else ((dflt, some GoErr.parseFailure), r.2)

/-! ### Basic facts about the line source and the byte helpers -/

theorem isEmpty_false_of_ne {l : List Byte} (h : l ≠ []) : l.isEmpty = false := by
  cases l with
  | nil => exact absurd rfl h
  | cons a t => rfl

theorem readLine_eof_rest_nil (src : List Byte) (h : (readLine src).2.1 = true) :
    (readLine src).2.2 = [] := by
  induction src with
  | nil => rfl
  | cons c t ih =>
    by_cases hc : (c == '\n') = true
    · simp [readLine, hc] at h
    · simp only [readLine, hc] at h ⊢
      simp only [Bool.false_eq_true, if_false] at h ⊢
      exact ih h

theorem readLine_rest_lt (src : List Byte) (h : (readLine src).2.1 = false) :
    (readLine src).2.2.length < src.length := by
  induction src with
  | nil => simp [readLine] at h
  | cons c t ih =>
    by_cases hc : (c == '\n') = true
    · simp [readLine, hc]
    · simp only [readLine, hc, Bool.false_eq_true, if_false] at h ⊢
      exact Nat.lt_succ_of_lt (ih h)

theorem readLine_append (xs rest : List Byte) (h : ∀ c ∈ xs, (c == '\n') = false) :
    readLine (xs ++ '\n' :: rest) = (xs ++ ['\n'], false, rest) := by
  induction xs with
  | nil => simp [readLine]
  | cons c t ih =>
    have hc : (c == '\n') = false := h c (List.mem_cons_self c t)
    have ht : ∀ c ∈ t, (c == '\n') = false := fun a ha => h a (List.mem_cons_of_mem c ha)
    simp only [List.cons_append, readLine, hc, Bool.false_eq_true, if_false, List.append_eq,
      ih ht]

theorem dropWhile_eq_self_of_none {p : Byte → Bool} {l : List Byte}
    (h : ∀ c ∈ l, p c = false) : l.dropWhile p = l := by
  cases l with
  | nil => rfl
  | cons c t => simp [List.dropWhile, h c (List.mem_cons_self c t)]

theorem trimRightCRLF_append_newline (xs : List Byte) (h : ∀ c ∈ xs, isCRLF c = false) :
    trimRightCRLF (xs ++ ['\n']) = xs := by
  unfold trimRightCRLF
  rw [List.reverse_append]
  simp only [List.reverse_cons, List.reverse_nil, List.nil_append, List.singleton_append,
    List.dropWhile]
  norm_num [isCRLF]
  rw [dropWhile_eq_self_of_none (by intro c hc; exact h c (List.mem_reverse.mp hc))]
  exact List.reverse_reverse xs

theorem isPrefixList_append (xs ys : List Byte) : isPrefixList xs (xs ++ ys) = true := by
  induction xs with
  | nil => rfl
  | cons a t ih => simp [isPrefixList, ih]

/-! ### Unfolding the loop one step at a time -/

theorem processStep_cont_source_lt (uErr : List Byte → Option ErrorResponse)
    (s : StreamReader) (cnt : Nat) (s' : StreamReader) (c' : Nat)
    (h : processStep uErr s cnt = StepOut.cont s' c') :
    s'.source.length < s.source.length := by
  have hlt : (readLine s.source).2.1 = false →
      (readLine s.source).2.2.length < s.source.length := readLine_rest_lt s.source
  simp only [processStep] at h
  split at h
  · split at h <;> exact absurd h (by simp)
  · rename_i heof
    have hr := hlt (Bool.not_eq_true _ ▸ heof)
    split at h
    · split at h
      · exact absurd h (by simp)
      · split at h
        · split at h
          · exact absurd h (by simp)
          · cases h; exact hr
        · exact absurd h (by simp)
    · split at h
      · split at h
        · exact absurd h (by simp)
        · split at h
          · cases h; exact hr
          · cases h; exact hr
      · split at h
        · cases h; exact hr
        · split at h
          · cases h; exact hr
          · cases h; exact hr

theorem processLoopAux_congr (uErr : List Byte → Option ErrorResponse) :
    ∀ (f g : Nat) (s : StreamReader) (cnt : Nat),
      s.source.length < f → s.source.length < g →
      processLoopAux uErr f s cnt = processLoopAux uErr g s cnt := by
  intro f
  induction f with
  | zero => intro g s cnt hf; omega
  | succ f ih =>
    intro g s cnt hf hg
    cases g with
    | zero => omega
    | succ g =>
      simp only [processLoopAux]
      cases h : processStep uErr s cnt with
      | ret r => rfl
      | cont s' c' =>
        have hlt := processStep_cont_source_lt uErr s cnt s' c' h
        exact ih g s' c' (by omega) (by omega)

theorem processLoop_eq_step (uErr : List Byte → Option ErrorResponse)
    (s : StreamReader) (cnt : Nat) :
    processLoop uErr s cnt =
      match processStep uErr s cnt with
      | StepOut.ret r => r
      | StepOut.cont s' c' => processLoop uErr s' c' := by
  unfold processLoop
  conv_lhs => rw [processLoopAux]
  cases h : processStep uErr s cnt with
  | ret r => rfl
  | cont s' c' =>
    have hlt := processStep_cont_source_lt uErr s cnt s' c' h
    exact processLoopAux_congr uErr _ _ s' c' (by omega) (Nat.lt_succ_self _)

/-! ### Characterizing each branch of the loop body -/

theorem isPrefixList_data_of_error (p : List Byte) :
    isPrefixList dataHeaderBytes (errorHeaderBytes ++ p) = false := rfl

theorem processStep_eof_empty (uErr : List Byte → Option ErrorResponse)
    (s : StreamReader) (cnt : Nat)
    (h : (readLine s.source).2.1 = true) (hd : s.dataBuffer = []) :
    processStep uErr s cnt =
      StepOut.ret (([], some GoErr.eof), { s with isFinished := true, source := [] }) := by
  have hrest := readLine_eof_rest_nil s.source h
  simp [processStep, h, hd, hrest]

theorem processStep_eof_flush (uErr : List Byte → Option ErrorResponse)
    (s : StreamReader) (cnt : Nat)
    (h : (readLine s.source).2.1 = true) (hd : s.dataBuffer ≠ []) :
    processStep uErr s cnt =
      StepOut.ret ((s.dataBuffer, none), { s with dataBuffer := [], source := [] }) := by
  have hrest := readLine_eof_rest_nil s.source h
  simp [processStep, h, isEmpty_false_of_ne hd, hrest]

theorem processStep_blank_error_hit (uErr : List Byte → Option ErrorResponse)
    (s : StreamReader) (cnt : Nat) (raw rest : List Byte) (resp : ErrorResponse)
    (hr : readLine s.source = (raw, false, rest))
    (htrim : trimRightCRLF raw = [])
    (hu : unmarshalError uErr s.errAccumulator = some resp) :
    processStep uErr s cnt =
      StepOut.ret (([], Option.map GoErr.api resp.error), { s with source := rest }) := by
  simp [processStep, hr, htrim, hu]

theorem processStep_blank_flush (uErr : List Byte → Option ErrorResponse)
    (s : StreamReader) (cnt : Nat) (raw rest : List Byte)
    (hr : readLine s.source = (raw, false, rest))
    (htrim : trimRightCRLF raw = [])
    (hu : unmarshalError uErr s.errAccumulator = none)
    (hd : s.dataBuffer ≠ []) :
    processStep uErr s cnt =
      StepOut.ret ((s.dataBuffer, none), { s with dataBuffer := [], source := rest }) := by
  simp [processStep, hr, htrim, hu, isEmpty_false_of_ne hd]

theorem processStep_blank_limit (uErr : List Byte → Option ErrorResponse)
    (s : StreamReader) (cnt : Nat) (raw rest : List Byte)
    (hr : readLine s.source = (raw, false, rest))
    (htrim : trimRightCRLF raw = [])
    (hu : unmarshalError uErr s.errAccumulator = none)
    (hd : s.dataBuffer = [])
    (hc : s.emptyMessagesLimit < cnt + 1) :
    processStep uErr s cnt =
      StepOut.ret (([], some GoErr.tooManyEmpty), { s with source := rest }) := by
  simp [processStep, hr, htrim, hu, hd, hc]

theorem processStep_blank_cont (uErr : List Byte → Option ErrorResponse)
    (s : StreamReader) (cnt : Nat) (raw rest : List Byte)
    (hr : readLine s.source = (raw, false, rest))
    (htrim : trimRightCRLF raw = [])
    (hu : unmarshalError uErr s.errAccumulator = none)
    (hd : s.dataBuffer = [])
    (hc : cnt + 1 ≤ s.emptyMessagesLimit) :
    processStep uErr s cnt = StepOut.cont { s with source := rest } (cnt + 1) := by
  simp [processStep, hr, htrim, hu, hd, Nat.not_lt.mpr hc]

theorem processStep_done (uErr : List Byte → Option ErrorResponse)
    (s : StreamReader) (cnt : Nat) (raw rest payload : List Byte)
    (hr : readLine s.source = (raw, false, rest))
    (htrim : trimRightCRLF raw = dataHeaderBytes ++ payload)
    (hp : payload = doneMarkerBytes ∨ payload = doneAltBytes) :
    processStep uErr s cnt =
      StepOut.ret (([], some GoErr.eof),
        { s with isFinished := true, receivedDone := true, source := rest }) := by
  have hne : (dataHeaderBytes ++ payload).isEmpty = false := rfl
  have hpre := isPrefixList_append dataHeaderBytes payload
  have hdrop : (dataHeaderBytes ++ payload).drop 6 = payload := rfl
  simp only [processStep, hr, htrim, hne, hpre, hdrop, Bool.false_eq_true, if_false, if_true]
  rw [if_pos hp]

theorem processStep_data_accum (uErr : List Byte → Option ErrorResponse)
    (s : StreamReader) (cnt : Nat) (raw rest payload : List Byte)
    (hr : readLine s.source = (raw, false, rest))
    (htrim : trimRightCRLF raw = dataHeaderBytes ++ payload)
    (hp : ¬(payload = doneMarkerBytes ∨ payload = doneAltBytes))
    (hne : payload ≠ []) :
    processStep uErr s cnt =
      StepOut.cont
        { s with source := rest,
                 dataBuffer := if s.dataBuffer.isEmpty then payload
                               else s.dataBuffer ++ '\n' :: payload } cnt := by
  have hne0 : (dataHeaderBytes ++ payload).isEmpty = false := rfl
  have hpre := isPrefixList_append dataHeaderBytes payload
  have hdrop : (dataHeaderBytes ++ payload).drop 6 = payload := rfl
  simp only [processStep, hr, htrim, hne0, hpre, hdrop, Bool.false_eq_true, if_false, if_true]
  rw [if_neg hp, if_neg (by simpa using hne)]

theorem processStep_error_line (uErr : List Byte → Option ErrorResponse)
    (s : StreamReader) (cnt : Nat) (raw rest p : List Byte)
    (hr : readLine s.source = (raw, false, rest))
    (htrim : trimRightCRLF raw = errorHeaderBytes ++ p) :
    processStep uErr s cnt =
      StepOut.cont { s with source := rest,
                            errAccumulator := s.errAccumulator ++ p } cnt := by
  have hne : (errorHeaderBytes ++ p).isEmpty = false := rfl
  have hpre := isPrefixList_append errorHeaderBytes p
  have hnd := isPrefixList_data_of_error p
  have hdrop : (errorHeaderBytes ++ p).drop 7 = p := rfl
  simp [processStep, hr, htrim, hne, hpre, hnd, hdrop]

theorem RecvRaw_eq_processLines (uErr : List Byte → Option ErrorResponse)
    (s : StreamReader) (h : s.isFinished = false) :
    RecvRaw uErr s = processLines uErr s := by
  simp [RecvRaw, h]

/-! ### C1: a terminal data line finishes the stream -/

/-- C1: whenever the next line delivered by the byte source is a
data-prefixed line whose payload (after stripping the `data: ` prefix and
trailing carriage-return/newline bytes) is the terminal token `[DONE]` or
the alternate literal `done`, the pull operation (`processLines` at any
point of its loop, and hence `RecvRaw` on an unfinished stream) sets
`isFinished` and `receivedDone` to `true` and returns `io.EOF`, leaving
the bytes after that line unread. -/
theorem dataDoneLine_finishes_stream (uErr : List Byte → Option ErrorResponse)
    (s : StreamReader) (cnt : Nat) (raw rest payload : List Byte)
    (hr : readLine s.source = (raw, false, rest))
    (htrim : trimRightCRLF raw = dataHeaderBytes ++ payload)
    (hp : payload = doneMarkerBytes ∨ payload = doneAltBytes) :
    processLoop uErr s cnt =
      (([], some GoErr.eof),
        { s with isFinished := true, receivedDone := true, source := rest })
    ∧ (s.isFinished = false →
        RecvRaw uErr s =
          (([], some GoErr.eof),
            { s with isFinished := true, receivedDone := true, source := rest })) := by
  constructor
  · rw [processLoop_eq_step, processStep_done uErr s cnt raw rest payload hr htrim hp]
  · intro hf
    simp only [RecvRaw, hf, Bool.false_eq_true, if_false, processLines]
    rw [processLoop_eq_step, processStep_done uErr s 0 raw rest payload hr htrim hp]

def doneWitnessState : StreamReader :=
  { emptyMessagesLimit := 300, isFinished := false, receivedDone := false,
    source := ("data: [DONE]\r\nafter").data, dataBuffer := [], errAccumulator := [] }

theorem dataDoneLine_finishes_stream_witness :
    processLoop (fun _ => none) doneWitnessState 0 =
      (([], some GoErr.eof),
        { doneWitnessState with isFinished := true, receivedDone := true,
                                source := ("after").data })
    ∧ RecvRaw (fun _ => none) doneWitnessState =
      (([], some GoErr.eof),
        { doneWitnessState with isFinished := true, receivedDone := true,
                                source := ("after").data }) := by
  have h := dataDoneLine_finishes_stream (fun _ => none) doneWitnessState 0
    (("data: [DONE]\r\n").data) (("after").data) doneMarkerBytes
    (by decide) (by decide) (Or.inl rfl)
  exact ⟨h.1, h.2 rfl⟩

/-! ### C6: a finished stream only ever reports EOF -/

/-- C6: once `isFinished` is `true`, every subsequent pull (`RecvRaw`, and
hence `Recv`) returns `io.EOF` and leaves the whole stream state — in
particular the unread byte source — exactly unchanged. -/
theorem finished_stream_always_eof {T : Type} (uErr : List Byte → Option ErrorResponse)
    (uResp : List Byte → Option T) (dflt : T) (s : StreamReader)
    (h : s.isFinished = true) :
    RecvRaw uErr s = (([], some GoErr.eof), s)
    ∧ Recv uErr uResp dflt s = ((dflt, some GoErr.eof), s) := by
  have h1 : RecvRaw uErr s = (([], some GoErr.eof), s) := by simp [RecvRaw, h]
  exact ⟨h1, by simp [Recv, h1, isEOFLike]⟩

def finishedWitnessState : StreamReader :=
  { emptyMessagesLimit := 300, isFinished := true, receivedDone := true,
    source := ("data: pending\n\n").data, dataBuffer := ['z'], errAccumulator := ['w'] }

theorem finished_stream_always_eof_witness :
    RecvRaw (fun _ => none) finishedWitnessState =
      (([], some GoErr.eof), finishedWitnessState)
    ∧ Recv (fun _ => none) (fun _ => (none : Option Nat)) 0 finishedWitnessState =
      ((0, some GoErr.eof), finishedWitnessState) :=
  finished_stream_always_eof (fun _ => none) (fun _ => none) 0 finishedWitnessState rfl

/-! ### C3: EOF with unflushed data emits a final frame first -/

/-- C3: if the byte source signals end-of-stream while the data buffer
still holds unflushed bytes, the pull returns those buffered bytes as one
final frame with no error (and does not set `isFinished`), and only the
subsequent pull reports `io.EOF`. -/
theorem eof_with_buffered_data_flushes (uErr : List Byte → Option ErrorResponse)
    (s : StreamReader) (hfin : s.isFinished = false) (hbuf : s.dataBuffer ≠ [])
    (heof : (readLine s.source).2.1 = true) :
    RecvRaw uErr s = ((s.dataBuffer, none), { s with dataBuffer := [], source := [] })
    ∧ RecvRaw uErr { s with dataBuffer := [], source := [] } =
        (([], some GoErr.eof),
          { s with dataBuffer := [], source := [], isFinished := true }) := by
  constructor
  · rw [RecvRaw_eq_processLines uErr s hfin]
    unfold processLines
    rw [processLoop_eq_step, processStep_eof_flush uErr s 0 heof hbuf]
  · rw [RecvRaw_eq_processLines uErr { s with dataBuffer := [], source := [] } hfin]
    unfold processLines
    rw [processLoop_eq_step,
      processStep_eof_empty uErr { s with dataBuffer := [], source := [] } 0 rfl rfl]

def unflushedWitnessState : StreamReader :=
  { emptyMessagesLimit := 300, isFinished := false, receivedDone := false,
    source := [], dataBuffer := ("partial frame").data, errAccumulator := [] }

theorem eof_with_buffered_data_flushes_witness :
    RecvRaw (fun _ => none) unflushedWitnessState =
      ((("partial frame").data, none), { unflushedWitnessState with dataBuffer := [] })
    ∧ RecvRaw (fun _ => none) { unflushedWitnessState with dataBuffer := [] } =
        (([], some GoErr.eof),
          { unflushedWitnessState with dataBuffer := [], isFinished := true }) :=
  eof_with_buffered_data_flushes (fun _ => none) unflushedWitnessState rfl
    (by decide) rfl

/-! ### C4: EOF with a pending error payload (corrected) -/

def truncatedErrorState : StreamReader :=
  { emptyMessagesLimit := 300, isFinished := false, receivedDone := false,
    source := ("error: partial\n").data, dataBuffer := [], errAccumulator := [] }

/-- C4 counterexample: the byte source ends right after an `error: `
line with no boundary, so the pull finishes with an empty data buffer and
a non-empty error accumulator — yet `RecvRaw` returns the clean
end-of-stream signal `io.EOF` (and marks the stream finished), not a
truncated-stream error as the claim states. -/
theorem truncated_error_returns_clean_eof_counterexample :
    truncatedErrorState.dataBuffer = []
    ∧ (RecvRaw (fun _ => none) truncatedErrorState).2.errAccumulator ≠ []
    ∧ RecvRaw (fun _ => none) truncatedErrorState =
        (([], some GoErr.eof),
          { truncatedErrorState with isFinished := true, source := [],
                                     errAccumulator := ("partial").data }) := by
  decide

/-- C4 amended: if the byte source signals end-of-stream while the data
buffer is empty, the pull returns the clean end-of-stream signal `io.EOF`
and sets `isFinished`, regardless of the contents of the error
accumulator — the current implementation has no truncated-stream error
path (that behavior exists only in the superseded variant of the
stream reader). -/
theorem eof_with_empty_buffer_clean_eof (uErr : List Byte → Option ErrorResponse)
    (s : StreamReader) (hfin : s.isFinished = false) (hbuf : s.dataBuffer = [])
    (heof : (readLine s.source).2.1 = true) :
    RecvRaw uErr s = (([], some GoErr.eof), { s with isFinished := true, source := [] }) := by
  simp only [RecvRaw, hfin, Bool.false_eq_true, if_false, processLines]
  rw [processLoop_eq_step, processStep_eof_empty uErr s 0 heof hbuf]

def pendingErrorEOFState : StreamReader :=
  { emptyMessagesLimit := 300, isFinished := false, receivedDone := false,
    source := [], dataBuffer := [], errAccumulator := ("partial").data }

theorem eof_with_empty_buffer_clean_eof_witness :
    RecvRaw (fun _ => none) pendingErrorEOFState =
      (([], some GoErr.eof), { pendingErrorEOFState with isFinished := true }) :=
  eof_with_empty_buffer_clean_eof (fun _ => none) pendingErrorEOFState rfl rfl
    (by decide)

/-! ### C5: the empty-message limit fires exactly at the threshold -/

theorem processLoop_blank_skip (uErr : List Byte → Option ErrorResponse) (k : Nat) :
    ∀ (s : StreamReader) (cnt : Nat) (rest : List Byte),
      s.dataBuffer = [] → s.errAccumulator = [] →
      s.source = List.replicate k '\n' ++ rest →
      cnt + k ≤ s.emptyMessagesLimit →
      processLoop uErr s cnt = processLoop uErr { s with source := rest } (cnt + k) := by
  induction k with
  | zero =>
    intro s cnt rest hd he hs hc
    simp only [List.replicate_zero, List.nil_append] at hs
    have hss : { s with source := rest } = s := by
      cases s; simp only at hs; simp [hs]
    rw [hss, Nat.add_zero]
  | succ k ih =>
    intro s cnt rest hd he hs hc
    have hr : readLine s.source = (['\n'], false, List.replicate k '\n' ++ rest) := by
      rw [hs, List.replicate_succ, List.cons_append]
      simp [readLine]
    have htrim : trimRightCRLF ['\n'] = [] := by decide
    have hu : unmarshalError uErr s.errAccumulator = none := by
      simp [unmarshalError, he]
    have hstep := processStep_blank_cont uErr s cnt _ _ hr htrim hu hd (by omega)
    calc processLoop uErr s cnt
        = processLoop uErr { s with source := List.replicate k '\n' ++ rest } (cnt + 1) := by
          rw [processLoop_eq_step, hstep]
      _ = processLoop uErr { s with source := rest } (cnt + 1 + k) :=
          ih { s with source := List.replicate k '\n' ++ rest } (cnt + 1) rest hd he rfl
            (show cnt + 1 + k ≤ s.emptyMessagesLimit by omega)
      _ = processLoop uErr { s with source := rest } (cnt + (k + 1)) := by
          rw [show cnt + 1 + k = cnt + (k + 1) from by omega]

/-- C5: starting a pull with empty data buffer and empty error
accumulator, each blank-line boundary increments the (pull-local)
empty-frame counter; when the source starts with `limit + 1` blank lines
the pull returns `ErrTooManyEmptyStreamMessages` exactly at the boundary
that first exceeds the limit, leaving the bytes after it unread, while any
run of at most `limit` blank lines never produces that error (a source
consisting only of such a run ends in clean `io.EOF` instead). -/
theorem too_many_empty_at_threshold (uErr : List Byte → Option ErrorResponse)
    (s : StreamReader) (hd : s.dataBuffer = []) (he : s.errAccumulator = []) :
    (∀ rest : List Byte,
      s.source = List.replicate (s.emptyMessagesLimit + 1) '\n' ++ rest →
      processLines uErr s = (([], some GoErr.tooManyEmpty), { s with source := rest }))
    ∧ (∀ k : Nat, k ≤ s.emptyMessagesLimit → s.source = List.replicate k '\n' →
      processLines uErr s =
        (([], some GoErr.eof), { s with isFinished := true, source := [] })) := by
  constructor
  · intro rest hs
    have hs' : s.source = List.replicate s.emptyMessagesLimit '\n' ++ ('\n' :: rest) := by
      rw [hs, List.replicate_succ', List.append_assoc, List.singleton_append]
    unfold processLines
    rw [processLoop_blank_skip uErr s.emptyMessagesLimit s 0 ('\n' :: rest) hd he hs'
      (by omega)]
    have hr : readLine (({ s with source := ('\n' :: rest) } : StreamReader).source) =
        (['\n'], false, rest) := by simp [readLine]
    have htrim : trimRightCRLF ['\n'] = [] := by decide
    have hu : unmarshalError uErr s.errAccumulator = none := by
      simp [unmarshalError, he]
    have hstep := processStep_blank_limit uErr { s with source := ('\n' :: rest) }
      (0 + s.emptyMessagesLimit) _ _ hr htrim hu hd
      (show s.emptyMessagesLimit < 0 + s.emptyMessagesLimit + 1 by omega)
    rw [processLoop_eq_step, hstep]
  · intro k hk hs
    unfold processLines
    rw [processLoop_blank_skip uErr k s 0 [] hd he (by rw [hs, List.append_nil])
      (by omega)]
    rw [processLoop_eq_step,
      processStep_eof_empty uErr { s with source := [] } (0 + k) rfl hd]

def emptyRunLimitState : StreamReader :=
  { emptyMessagesLimit := 2, isFinished := false, receivedDone := false,
    source := ("\n\n\ndata: later\n").data, dataBuffer := [], errAccumulator := [] }

def emptyRunShortState : StreamReader :=
  { emptyMessagesLimit := 2, isFinished := false, receivedDone := false,
    source := ("\n\n").data, dataBuffer := [], errAccumulator := [] }

theorem too_many_empty_at_threshold_witness :
    processLines (fun _ => none) emptyRunLimitState =
      (([], some GoErr.tooManyEmpty),
        { emptyRunLimitState with source := ("data: later\n").data })
    ∧ processLines (fun _ => none) emptyRunShortState =
      (([], some GoErr.eof),
        { emptyRunShortState with isFinished := true, source := [] }) :=
  ⟨(too_many_empty_at_threshold (fun _ => none) emptyRunLimitState rfl rfl).1
      (("data: later\n").data) (by decide),
   (too_many_empty_at_threshold (fun _ => none) emptyRunShortState rfl rfl).2
      2 (by decide) (by decide)⟩

/-! ### C2: IsComplete reflects exactly the observation of a terminal token -/

/-- Does a raw line, as returned by the line source, carry a terminal
token: after trimming trailing CR/LF it starts with the `data: ` header
and the remaining payload is `[DONE]` or `done` (mirrors the checks of
stream_reader.go lines 133-141). -/
def isDoneRaw (raw : List Byte) : Bool :=
  isPrefixList dataHeaderBytes (trimRightCRLF raw) &&
    (((trimRightCRLF raw).drop 6 == doneMarkerBytes) ||
      ((trimRightCRLF raw).drop 6 == doneAltBytes))

def hasDoneLineAux : Nat → List Byte → Bool
  | 0, _ => false
  | f + 1, src =>
    if (readLine src).2.1 then false
    else isDoneRaw (readLine src).1 || hasDoneLineAux f (readLine src).2.2

/-- Does the byte source contain a newline-terminated line carrying a
terminal token.  (A trailing unterminated line is irrelevant: on the read
that hits EOF the code discards the partial line, lines 88-101.) -/
def hasDoneLine (src : List Byte) : Bool := hasDoneLineAux (src.length + 1) src

theorem hasDoneLineAux_congr : ∀ (f g : Nat) (src : List Byte),
    src.length < f → src.length < g → hasDoneLineAux f src = hasDoneLineAux g src := by
  intro f
  induction f with
  | zero => intro g src hf; omega
  | succ f ih =>
    intro g src hf hg
    cases g with
    | zero => omega
    | succ g =>
      simp only [hasDoneLineAux]
      by_cases h : (readLine src).2.1 = true
      · simp [h]
      · have hb : (readLine src).2.1 = false := by simpa using h
        have hlt := readLine_rest_lt src hb
        simp only [hb, Bool.false_eq_true, if_false]
        rw [ih g _ (by omega) (by omega)]

theorem hasDoneLine_eq (src : List Byte) :
    hasDoneLine src =
      if (readLine src).2.1 then false
      else isDoneRaw (readLine src).1 || hasDoneLine (readLine src).2.2 := by
  by_cases h : (readLine src).2.1 = true
  · simp [hasDoneLine, hasDoneLineAux, h]
  · have hb : (readLine src).2.1 = false := by simpa using h
    have hlt := readLine_rest_lt src hb
    have h1 : hasDoneLine src =
        (isDoneRaw (readLine src).1 || hasDoneLineAux src.length (readLine src).2.2) := by
      show hasDoneLineAux (src.length + 1) src = _
      simp only [hasDoneLineAux]
      simp [hb]
    rw [h1, hb]
    simp only [Bool.false_eq_true, if_false]
    rw [hasDoneLineAux_congr src.length ((readLine src).2.2.length + 1) _ (by omega)
      (by omega)]
    rfl

/-- The stream state after one loop iteration, whether the iteration
returned to the caller or continued the loop. -/
def stepState : StepOut → StreamReader
  | StepOut.ret r => r.2
  | StepOut.cont s' _ => s'

theorem processStep_preserves_no_done (uErr : List Byte → Option ErrorResponse)
    (s : StreamReader) (cnt : Nat) (hnd : hasDoneLine s.source = false) :
    (stepState (processStep uErr s cnt)).receivedDone = s.receivedDone ∧
    hasDoneLine (stepState (processStep uErr s cnt)).source = false := by
  by_cases heof : (readLine s.source).2.1 = true
  · have hrest := readLine_eof_rest_nil s.source heof
    have hnil : hasDoneLine ([] : List Byte) = false := rfl
    simp only [processStep, heof, if_true, hrest]
    by_cases hd : s.dataBuffer.isEmpty = true <;> simp [hd, stepState, hnil]
  · have hb : (readLine s.source).2.1 = false := by simpa using heof
    have hsplit := hasDoneLine_eq s.source
    rw [hb] at hsplit
    simp only [Bool.false_eq_true, if_false] at hsplit
    rw [hnd] at hsplit
    have hor : isDoneRaw (readLine s.source).1 = false ∧
        hasDoneLine (readLine s.source).2.2 = false := by
      constructor
      · cases h1 : isDoneRaw (readLine s.source).1
        · rfl
        · rw [h1] at hsplit; simp at hsplit
      · cases h2 : hasDoneLine (readLine s.source).2.2
        · rfl
        · rw [h2] at hsplit; simp at hsplit
    simp only [processStep, hb, Bool.false_eq_true, if_false]
    split
    · split
      · exact ⟨rfl, hor.2⟩
      · split
        · split
          · exact ⟨rfl, hor.2⟩
          · exact ⟨rfl, hor.2⟩
        · exact ⟨rfl, hor.2⟩
    · split
      · split
        · exfalso
          have h1 : isPrefixList dataHeaderBytes (trimRightCRLF (readLine s.source).1)
              = true := by assumption
          have hpl : (trimRightCRLF (readLine s.source).1).drop 6 = doneMarkerBytes ∨
              (trimRightCRLF (readLine s.source).1).drop 6 = doneAltBytes := by assumption
          have hdone := hor.1
          rcases hpl with h | h <;> simp [isDoneRaw, h1, h] at hdone
        · split
          · exact ⟨rfl, hor.2⟩
          · exact ⟨rfl, hor.2⟩
      · split
        · exact ⟨rfl, hor.2⟩
        · split
          · exact ⟨rfl, hor.2⟩
          · exact ⟨rfl, hor.2⟩

theorem processLoopAux_preserves_no_done (uErr : List Byte → Option ErrorResponse) :
    ∀ (f : Nat) (s : StreamReader) (cnt : Nat), s.source.length < f →
      hasDoneLine s.source = false →
      (processLoopAux uErr f s cnt).2.receivedDone = s.receivedDone ∧
      hasDoneLine (processLoopAux uErr f s cnt).2.source = false := by
  intro f
  induction f with
  | zero => intro s cnt hf; omega
  | succ f ih =>
    intro s cnt hf hnd
    have hstep := processStep_preserves_no_done uErr s cnt hnd
    simp only [processLoopAux]
    cases h : processStep uErr s cnt with
    | ret r =>
      rw [h] at hstep
      simpa [stepState] using hstep
    | cont s' c' =>
      rw [h] at hstep
      simp only [stepState] at hstep
      have hlt := processStep_cont_source_lt uErr s cnt s' c' h
      have hrec := ih s' c' (by omega) hstep.2
      exact ⟨by rw [hrec.1, hstep.1], hrec.2⟩

theorem RecvRaw_preserves_no_done (uErr : List Byte → Option ErrorResponse)
    (s : StreamReader) (hnd : hasDoneLine s.source = false) :
    (RecvRaw uErr s).2.receivedDone = s.receivedDone ∧
    hasDoneLine (RecvRaw uErr s).2.source = false := by
  by_cases h : s.isFinished = true
  · simp [RecvRaw, h, hnd]
  · have hb : s.isFinished = false := by simpa using h
    rw [RecvRaw_eq_processLines uErr s hb]
    exact processLoopAux_preserves_no_done uErr (s.source.length + 1) s 0
      (Nat.lt_succ_self _) hnd

/-- Iterated pulls: the stream state after `n` successive `RecvRaw` calls. -/
def pulls (uErr : List Byte → Option ErrorResponse) : Nat → StreamReader → StreamReader
  | 0, s => s
  | n + 1, s => pulls uErr n (RecvRaw uErr s).2

theorem pulls_preserves_no_done (uErr : List Byte → Option ErrorResponse) :
    ∀ (n : Nat) (s : StreamReader), s.receivedDone = false →
      hasDoneLine s.source = false →
      (pulls uErr n s).receivedDone = false ∧
      hasDoneLine (pulls uErr n s).source = false := by
  intro n
  induction n with
  | zero => intro s h1 h2; exact ⟨h1, h2⟩
  | succ n ih =>
    intro s h1 h2
    have h := RecvRaw_preserves_no_done uErr s h2
    simp only [pulls]
    exact ih _ (by rw [h.1, h1]) h.2

/-- C2: `IsComplete` is true only if the terminal marker was actually
observed.  First: if `receivedDone` is not yet set and the remaining byte
source contains no newline-terminated terminal-token line (in particular
when the source merely runs out of bytes into a clean EOF), then after any
number of pulls `IsComplete` is still `false`.  Second: whenever a pull
consumes a terminal-token data line — any loop iteration whose next line
is the token, and in particular a `RecvRaw` on an unfinished stream —
`IsComplete` is `true` immediately afterwards. -/
theorem isComplete_iff_done_observed (uErr : List Byte → Option ErrorResponse) :
    (∀ (s : StreamReader) (n : Nat), s.receivedDone = false →
      hasDoneLine s.source = false → IsComplete (pulls uErr n s) = false)
    ∧ (∀ (s : StreamReader) (cnt : Nat) (raw rest payload : List Byte),
      readLine s.source = (raw, false, rest) →
      trimRightCRLF raw = dataHeaderBytes ++ payload →
      (payload = doneMarkerBytes ∨ payload = doneAltBytes) →
      IsComplete (processLoop uErr s cnt).2 = true ∧
      (s.isFinished = false → IsComplete (RecvRaw uErr s).2 = true)) := by
  constructor
  · intro s n h1 h2
    exact (pulls_preserves_no_done uErr n s h1 h2).1
  · intro s cnt raw rest payload hr htrim hp
    constructor
    · rw [processLoop_eq_step, processStep_done uErr s cnt raw rest payload hr htrim hp]
      rfl
    · intro hf
      rw [RecvRaw_eq_processLines uErr s hf]
      unfold processLines
      rw [processLoop_eq_step, processStep_done uErr s 0 raw rest payload hr htrim hp]
      rfl

def noDoneWitnessState : StreamReader :=
  { emptyMessagesLimit := 300, isFinished := false, receivedDone := false,
    source := ("data: a\n\ndata: b\n").data, dataBuffer := [], errAccumulator := [] }

def doneAltWitnessState : StreamReader :=
  { emptyMessagesLimit := 300, isFinished := false, receivedDone := false,
    source := ("data: done\nx").data, dataBuffer := [], errAccumulator := [] }

theorem isComplete_iff_done_observed_witness :
    IsComplete (pulls (fun _ => none) 3 noDoneWitnessState) = false
    ∧ IsComplete (RecvRaw (fun _ => none) doneAltWitnessState).2 = true := by
  have h := isComplete_iff_done_observed (fun _ => none)
  refine ⟨h.1 noDoneWitnessState 3 rfl (by decide), ?_⟩
  exact (h.2 doneAltWitnessState 0 (("data: done\n").data) (("x").data) doneAltBytes
    (by decide) (by decide) (Or.inr rfl)).2 rfl

/-! ### C7: multi-line data payloads become one newline-joined frame -/

/-- A payload that is accumulated verbatim by the loop: non-empty, not a
terminal token, and free of CR/LF bytes (so it fits on one wire line and
survives the right-trim unchanged). -/
def goodPayload (p : List Byte) : Prop :=
  p ≠ [] ∧ p ≠ doneMarkerBytes ∧ p ≠ doneAltBytes ∧ ∀ c ∈ p, isCRLF c = false

instance (p : List Byte) : Decidable (goodPayload p) := by
  unfold goodPayload; infer_instance

/-- The wire encoding of one data line carrying payload `p`. -/
def dataLineBytes (p : List Byte) : List Byte := dataHeaderBytes ++ p ++ ['\n']

/-- The wire encoding of consecutive data lines. -/
def encodeDataLines (ps : List (List Byte)) : List Byte := (ps.map dataLineBytes).flatten

/-- The payloads joined with exactly one newline byte between consecutive
payloads. -/
def joinWithNL : List (List Byte) → List Byte
  | [] => []
  | [p] => p
  | p :: q :: ps => p ++ '\n' :: joinWithNL (q :: ps)

def nlJoin : List (List Byte) → List Byte
  | [] => []
  | p :: ps => '\n' :: (p ++ nlJoin ps)

theorem joinWithNL_cons (p : List Byte) (ps : List (List Byte)) :
    joinWithNL (p :: ps) = p ++ nlJoin ps := by
  induction ps generalizing p with
  | nil => simp [joinWithNL, nlJoin]
  | cons q ps ih => simp [joinWithNL, nlJoin, ih q]

theorem not_newline_of_not_CRLF {c : Byte} (h : isCRLF c = false) : (c == '\n') = false := by
  simp only [isCRLF, Bool.or_eq_false_iff] at h
  exact h.2

theorem foldl_buffer_ne (ps : List (List Byte)) :
    ∀ d : List Byte, d ≠ [] →
      List.foldl (fun acc p => if acc.isEmpty then p else acc ++ '\n' :: p) d ps =
        d ++ nlJoin ps := by
  induction ps with
  | nil => intro d hd; simp [nlJoin]
  | cons p ps ih =>
    intro d hd
    simp only [List.foldl_cons, isEmpty_false_of_ne hd, Bool.false_eq_true, if_false]
    rw [ih (d ++ '\n' :: p) (by simp)]
    simp [nlJoin]

theorem foldl_buffer_nil (ps : List (List Byte)) (hne : ps ≠ [])
    (h0 : ∀ p ∈ ps, p ≠ []) :
    List.foldl (fun acc p => if acc.isEmpty then p else acc ++ '\n' :: p) [] ps =
      joinWithNL ps := by
  cases ps with
  | nil => exact absurd rfl hne
  | cons p ps =>
    have hp := h0 p (List.mem_cons_self p ps)
    simp only [List.foldl_cons, List.isEmpty_nil, if_true]
    rw [foldl_buffer_ne ps p hp, joinWithNL_cons]

theorem joinWithNL_ne_nil (ps : List (List Byte)) (hne : ps ≠ [])
    (h0 : ∀ p ∈ ps, p ≠ []) : joinWithNL ps ≠ [] := by
  cases ps with
  | nil => exact absurd rfl hne
  | cons p ps =>
    rw [joinWithNL_cons]
    intro h
    exact (h0 p (List.mem_cons_self p ps)) (List.append_eq_nil.mp h).1

theorem processLoop_data_lines (uErr : List Byte → Option ErrorResponse)
    (ps : List (List Byte)) :
    ∀ (s : StreamReader) (cnt : Nat) (tail : List Byte),
      (∀ p ∈ ps, goodPayload p) →
      s.source = encodeDataLines ps ++ tail →
      processLoop uErr s cnt =
        processLoop uErr
          { s with source := tail,
                   dataBuffer := List.foldl
                     (fun acc p => if acc.isEmpty then p else acc ++ '\n' :: p)
                     s.dataBuffer ps } cnt := by
  induction ps with
  | nil =>
    intro s cnt tail hgood hs
    have hs' : s.source = tail := by simpa [encodeDataLines] using hs
    have hss : { s with
                 source := tail,
                 dataBuffer := List.foldl
                   (fun acc p => if acc.isEmpty then p else acc ++ '\n' :: p)
                   s.dataBuffer [] } = s := by
      cases s; simp only at hs'; simp [hs']
    rw [hss]
  | cons p ps ih =>
    intro s cnt tail hgood hs
    obtain ⟨hne, hd1, hd2, hcr⟩ := hgood p (List.mem_cons_self p ps)
    have hhdr : ∀ c ∈ dataHeaderBytes, (c == '\n') = false := by decide
    have hhdr2 : ∀ c ∈ dataHeaderBytes, isCRLF c = false := by decide
    have hnl : ∀ c ∈ dataHeaderBytes ++ p, (c == '\n') = false := by
      intro c hc
      rcases List.mem_append.mp hc with h | h
      · exact hhdr c h
      · exact not_newline_of_not_CRLF (hcr c h)
    have hcrall : ∀ c ∈ dataHeaderBytes ++ p, isCRLF c = false := by
      intro c hc
      rcases List.mem_append.mp hc with h | h
      · exact hhdr2 c h
      · exact hcr c h
    have hsrc : s.source =
        (dataHeaderBytes ++ p) ++ '\n' :: (encodeDataLines ps ++ tail) := by
      rw [hs]
      simp [encodeDataLines, dataLineBytes]
    have hr := readLine_append (dataHeaderBytes ++ p) (encodeDataLines ps ++ tail) hnl
    rw [← hsrc] at hr
    have htrim := trimRightCRLF_append_newline (dataHeaderBytes ++ p) hcrall
    have hstep := processStep_data_accum uErr s cnt _ _ p hr htrim
      (not_or.mpr ⟨hd1, hd2⟩) hne
    calc processLoop uErr s cnt
        = processLoop uErr
            { s with source := encodeDataLines ps ++ tail,
                     dataBuffer := if s.dataBuffer.isEmpty then p
                                   else s.dataBuffer ++ '\n' :: p } cnt := by
          rw [processLoop_eq_step, hstep]
      _ = processLoop uErr
            { s with source := tail,
                     dataBuffer := List.foldl
                       (fun acc p => if acc.isEmpty then p else acc ++ '\n' :: p)
                       s.dataBuffer (p :: ps) } cnt :=
          ih _ cnt tail (fun q hq => hgood q (List.mem_cons_of_mem p hq)) rfl

/-- C7: when two or more data-prefixed lines with non-empty, non-terminal
payloads occur before the next blank-line boundary, the pull returns at
that boundary a single frame consisting of the payloads concatenated in
order with exactly one newline byte between consecutive payloads, and the
data buffer is reset to empty. -/
theorem multiline_data_one_frame (uErr : List Byte → Option ErrorResponse)
    (s : StreamReader) (ps : List (List Byte)) (rest : List Byte)
    (hlen : 2 ≤ ps.length) (hgood : ∀ p ∈ ps, goodPayload p)
    (hd : s.dataBuffer = []) (he : s.errAccumulator = [])
    (hs : s.source = encodeDataLines ps ++ '\n' :: rest) :
    processLines uErr s =
      ((joinWithNL ps, none), { s with dataBuffer := [], source := rest }) := by
  have hps : ps ≠ [] := by intro h; rw [h] at hlen; simp at hlen
  have h0 : ∀ p ∈ ps, p ≠ [] := fun p hp => (hgood p hp).1
  have hbuf := joinWithNL_ne_nil ps hps h0
  unfold processLines
  rw [processLoop_data_lines uErr ps s 0 ('\n' :: rest) hgood hs, hd,
    foldl_buffer_nil ps hps h0]
  have hr : readLine (('\n' : Byte) :: rest) = (['\n'], false, rest) := by
    simp [readLine]
  have htrim : trimRightCRLF ['\n'] = [] := by decide
  have hu : unmarshalError uErr s.errAccumulator = none := by simp [unmarshalError, he]
  have hstep := processStep_blank_flush uErr
    { s with source := '\n' :: rest, dataBuffer := joinWithNL ps } 0 ['\n'] rest
    hr htrim hu hbuf
  rw [processLoop_eq_step, hstep]

def multilineWitnessState : StreamReader :=
  { emptyMessagesLimit := 300, isFinished := false, receivedDone := false,
    source := ("data: ab\ndata: cd\n\ntail").data, dataBuffer := [], errAccumulator := [] }

theorem multiline_data_one_frame_witness :
    processLines (fun _ => none) multilineWitnessState =
      ((joinWithNL [("ab").data, ("cd").data], none),
        { multilineWitnessState with dataBuffer := [], source := ("tail").data }) :=
  multiline_data_one_frame (fun _ => none) multilineWitnessState
    [("ab").data, ("cd").data] (("tail").data) (by decide) (by decide) rfl rfl (by decide)

/-! ### C8: error-prefixed lines accumulate and surface at the boundary -/

/-- C8: an `error: `-prefixed line has its payload appended to the error
accumulator; when a blank-line boundary is then reached and the pending
error payload decodes (via the pluggable unmarshaler) to a structured
error response with a non-nil error, the pull returns that structured
error as its error result instead of a decoded frame. -/
theorem error_line_then_blank_surfaces_error (uErr : List Byte → Option ErrorResponse)
    (s : StreamReader) (p rest : List Byte) (e : APIError)
    (hp : p ≠ []) (hcr : ∀ c ∈ p, isCRLF c = false)
    (he : s.errAccumulator = [])
    (hs : s.source = errorHeaderBytes ++ p ++ '\n' :: '\n' :: rest)
    (hu : uErr p = some { error := some e }) :
    processLines uErr s =
      (([], some (GoErr.api e)), { s with source := rest, errAccumulator := p }) := by
  have hhdr : ∀ c ∈ errorHeaderBytes, (c == '\n') = false := by decide
  have hhdr2 : ∀ c ∈ errorHeaderBytes, isCRLF c = false := by decide
  have hnl : ∀ c ∈ errorHeaderBytes ++ p, (c == '\n') = false := by
    intro c hc
    rcases List.mem_append.mp hc with h | h
    · exact hhdr c h
    · exact not_newline_of_not_CRLF (hcr c h)
  have hcrall : ∀ c ∈ errorHeaderBytes ++ p, isCRLF c = false := by
    intro c hc
    rcases List.mem_append.mp hc with h | h
    · exact hhdr2 c h
    · exact hcr c h
  have hsrc : s.source = (errorHeaderBytes ++ p) ++ '\n' :: ('\n' :: rest) := by
    rw [hs]
  have hr := readLine_append (errorHeaderBytes ++ p) ('\n' :: rest) hnl
  rw [← hsrc] at hr
  have htrim := trimRightCRLF_append_newline (errorHeaderBytes ++ p) hcrall
  have hstep1 := processStep_error_line uErr s 0 _ _ p hr htrim
  unfold processLines
  rw [processLoop_eq_step, hstep1]
  show processLoop uErr
    { s with source := '\n' :: rest, errAccumulator := s.errAccumulator ++ p } 0 = _
  have hr2 : readLine (('\n' : Byte) :: rest) = (['\n'], false, rest) := by
    simp [readLine]
  have htrim2 : trimRightCRLF ['\n'] = [] := by decide
  have hu2 : unmarshalError uErr (s.errAccumulator ++ p) = some { error := some e } := by
    rw [he]
    simp [unmarshalError, isEmpty_false_of_ne hp, hu]
  have hstep2 := processStep_blank_error_hit uErr
    { s with source := '\n' :: rest, errAccumulator := s.errAccumulator ++ p } 0
    ['\n'] rest { error := some e } hr2 htrim2 hu2
  rw [processLoop_eq_step, hstep2]
  simp [he]

/-- Modelled from the spec: the JSON unmarshaler used in the witness run,
mapping the exact error payload of the spec scenario to its decoded
structured error; `encoding/json` is outside the repository's streaming
sources, and the spec gives this scenario's decoding explicitly. -/
def specBadKeyDecoder : List Byte → Option ErrorResponse := fun l =>
  if l = ("\x7b\"error\":\x7b\"message\":\"bad key\"\x7d\x7d").data
  then some { error := some { message := "bad key" } } else none

def errorScenarioState : StreamReader :=
  { emptyMessagesLimit := 300, isFinished := false, receivedDone := false,
    source := ("error: \x7b\"error\":\x7b\"message\":\"bad key\"\x7d\x7d\n\n").data,
    dataBuffer := [], errAccumulator := [] }

theorem error_line_then_blank_surfaces_error_witness :
    processLines specBadKeyDecoder errorScenarioState =
      (([], some (GoErr.api { message := "bad key" })),
        { errorScenarioState with
          source := [],
          errAccumulator := ("\x7b\"error\":\x7b\"message\":\"bad key\"\x7d\x7d").data }) :=
  error_line_then_blank_surfaces_error specBadKeyDecoder errorScenarioState
    (("\x7b\"error\":\x7b\"message\":\"bad key\"\x7d\x7d").data) []
    { message := "bad key" } (by decide) (by decide) rfl (by decide) (by decide)

/-! ### C9: the choices-marker decode tolerance in Recv -/

/-- C9: when `RecvRaw` delivers a frame, the error-response pre-check
does not fire, and the primary decode of the frame fails, `Recv` returns
the zero-value message with a nil error exactly when the frame's bytes
contain the marker substring `"choices"` (with quotes); for every such
frame without that marker, the decode error is surfaced to the caller. -/
theorem decode_tolerance_requires_choices_marker {T : Type}
    (uErr : List Byte → Option ErrorResponse) (uResp : List Byte → Option T)
    (dflt : T) (s s' : StreamReader) (raw : List Byte)
    (hraw : RecvRaw uErr s = ((raw, none), s'))
    (hfail : uResp raw = none)
    (herr : containsSub raw errorKeyBytes = true →
      (uErr raw).bind ErrorResponse.error = none) :
    Recv uErr uResp dflt s =
      ((dflt, if containsSub raw choicesKeyBytes then none
              else some GoErr.parseFailure), s') := by
  by_cases hc : containsSub raw errorKeyBytes = true
  · by_cases hch : containsSub raw choicesKeyBytes = true
    · simp [Recv, hraw, hfail, hc, herr hc, hch]
    · simp [Recv, hraw, hfail, hc, herr hc, hch]
  · have hc' : containsSub raw errorKeyBytes = false := by simpa using hc
    by_cases hch : containsSub raw choicesKeyBytes = true
    · simp [Recv, hraw, hfail, hc', hch]
    · simp [Recv, hraw, hfail, hc', hch]

def choicesFrameState : StreamReader :=
  { emptyMessagesLimit := 300, isFinished := false, receivedDone := false,
    source := ("data: \x7b\"choices\":[]\x7d\n\n").data,
    dataBuffer := [], errAccumulator := [] }

theorem decode_tolerance_requires_choices_marker_witness :
    Recv (fun _ => none) (fun _ => (none : Option Nat)) 0 choicesFrameState =
      ((0, none), { choicesFrameState with source := [] }) := by
  rw [decode_tolerance_requires_choices_marker (fun _ => none) (fun _ => none) 0
    choicesFrameState { choicesFrameState with source := [] }
    (("\x7b\"choices\":[]\x7d").data) (by decide) rfl (by decide)]
  decide

/-! ### C10: the empty-message counter is local to each pull -/

theorem pull_with_leading_blanks (uErr : List Byte → Option ErrorResponse)
    (s : StreamReader) (x tail : List Byte)
    (hx : goodPayload x) (hd : s.dataBuffer = []) (he : s.errAccumulator = [])
    (hs : s.source = List.replicate s.emptyMessagesLimit '\n' ++
      (dataLineBytes x ++ '\n' :: tail)) :
    processLines uErr s = ((x, none), { s with dataBuffer := [], source := tail }) := by
  obtain ⟨hne, hd1, hd2, hcr⟩ := hx
  unfold processLines
  rw [processLoop_blank_skip uErr s.emptyMessagesLimit s 0 _ hd he hs (by omega)]
  have hhdr : ∀ c ∈ dataHeaderBytes, (c == '\n') = false := by decide
  have hhdr2 : ∀ c ∈ dataHeaderBytes, isCRLF c = false := by decide
  have hnl : ∀ c ∈ dataHeaderBytes ++ x, (c == '\n') = false := by
    intro c hc
    rcases List.mem_append.mp hc with h | h
    · exact hhdr c h
    · exact not_newline_of_not_CRLF (hcr c h)
  have hcrall : ∀ c ∈ dataHeaderBytes ++ x, isCRLF c = false := by
    intro c hc
    rcases List.mem_append.mp hc with h | h
    · exact hhdr2 c h
    · exact hcr c h
  have hsrc1 : dataLineBytes x ++ '\n' :: tail =
      (dataHeaderBytes ++ x) ++ '\n' :: ('\n' :: tail) := by
    simp [dataLineBytes]
  have hr1 : readLine (dataLineBytes x ++ '\n' :: tail) =
      ((dataHeaderBytes ++ x) ++ ['\n'], false, '\n' :: tail) := by
    rw [hsrc1]; exact readLine_append _ _ hnl
  have htrim1 := trimRightCRLF_append_newline (dataHeaderBytes ++ x) hcrall
  have hstep1 := processStep_data_accum uErr
    { s with source := dataLineBytes x ++ '\n' :: tail } (0 + s.emptyMessagesLimit)
    _ _ x hr1 htrim1 (not_or.mpr ⟨hd1, hd2⟩) hne
  rw [processLoop_eq_step, hstep1]
  simp only [hd, List.isEmpty_nil, if_true]
  have hr2 : readLine (('\n' : Byte) :: tail) = (['\n'], false, tail) := by
    simp [readLine]
  have htrim2 : trimRightCRLF ['\n'] = [] := by decide
  have hu : unmarshalError uErr s.errAccumulator = none := by simp [unmarshalError, he]
  have hstep2 := processStep_blank_flush uErr
    { s with source := '\n' :: tail, dataBuffer := x } (0 + s.emptyMessagesLimit)
    ['\n'] tail hr2 htrim2 hu hne
  rw [processLoop_eq_step, hstep2]

/-- C10: the empty-messages counter is a local of `processLines`,
initialized to zero on every pull, so the configured limit bounds only the
blank-line boundaries seen within one pull: two successive pulls, each
preceded by a full `limit`-long run of blank lines (hence `2 * limit`
non-productive boundaries in total), both succeed with their frames and no
too-many-empty-messages error. -/
theorem empty_counter_local_to_pull (uErr : List Byte → Option ErrorResponse)
    (s : StreamReader) (p q tail : List Byte)
    (hp : goodPayload p) (hq : goodPayload q)
    (hd : s.dataBuffer = []) (he : s.errAccumulator = [])
    (hs : s.source = List.replicate s.emptyMessagesLimit '\n' ++
      (dataLineBytes p ++ '\n' ::
        (List.replicate s.emptyMessagesLimit '\n' ++ (dataLineBytes q ++ '\n' :: tail)))) :
    processLines uErr s = ((p, none),
      { s with dataBuffer := [],
               source := List.replicate s.emptyMessagesLimit '\n' ++
                 (dataLineBytes q ++ '\n' :: tail) })
    ∧ processLines uErr
        { s with dataBuffer := [],
                 source := List.replicate s.emptyMessagesLimit '\n' ++
                   (dataLineBytes q ++ '\n' :: tail) } =
      ((q, none), { s with dataBuffer := [], source := tail }) := by
  constructor
  · exact pull_with_leading_blanks uErr s p _ hp hd he hs
  · exact pull_with_leading_blanks uErr
      { s with dataBuffer := [],
               source := List.replicate s.emptyMessagesLimit '\n' ++
                 (dataLineBytes q ++ '\n' :: tail) } q tail hq rfl he rfl

def counterResetState : StreamReader :=
  { emptyMessagesLimit := 1, isFinished := false, receivedDone := false,
    source := ("\ndata: p\n\n\ndata: q\n\nz").data, dataBuffer := [], errAccumulator := [] }

theorem empty_counter_local_to_pull_witness :
    processLines (fun _ => none) counterResetState =
      ((("p").data, none),
        { counterResetState with
          dataBuffer := [],
          source := List.replicate counterResetState.emptyMessagesLimit '\n' ++
            (dataLineBytes (("q").data) ++ '\n' :: ("z").data) })
    ∧ processLines (fun _ => none)
        { counterResetState with
          dataBuffer := [],
          source := List.replicate counterResetState.emptyMessagesLimit '\n' ++
            (dataLineBytes (("q").data) ++ '\n' :: ("z").data) } =
      ((("q").data, none), { counterResetState with dataBuffer := [], source := ("z").data }) :=
  empty_counter_local_to_pull (fun _ => none) counterResetState
    (("p").data) (("q").data) (("z").data) (by decide) (by decide) rfl rfl (by decide)

end GoOpenAI
